import Mathlib

/-!
Verification of the RF Explorer protocol engine (samuel/rfexplorer).

The Go source embedded here is `rfx/protocol.go` (frame decoder `readLoop`,
command encoder `SetAnalyzerConfig` / `SendCommand`) together with the
consumer loop of `main.go` that maintains the configuration snapshot.

Modelling conventions, shared by every definition below:
* bytes are `Nat` values (a real buffer holds values `< 256`);
* the decode buffer is a `List Nat` `buf` plus a valid length `off`.
  The Go buffer is a fixed 8192-byte array that starts zeroed; reading
  `buf[i]` beyond the list we model with `List.getD _ _ 0`, i.e. cells not
  explicitly listed read as `0`, exactly like the freshly zeroed Go buffer.
  Go panics (slice-bounds violations inside the `'#'` sub-dispatch, which
  can only be reached by lines shorter than the indices it reads) are out of
  scope of the claims below and reduce to the `0`-default in this model;
* the sample conversion `-float64(adbm) / 2.0` is exact in IEEE double for
  every byte value (all results are multiples of 1/2 with magnitude ≤ 127.5),
  so we model amplitudes with `ℚ` and the exact value `-(b : ℚ) / 2`;
* Go's `int` division truncates toward zero, which is `Int.tdiv`;
* an operation that returns an error before touching the serial port is
  modelled as `Except.error`: the `.ok` payload is exactly the byte /
  character sequence that would be written, and `.error` means no write
  happened at all.
-/

namespace RFExplorer

/-- Decoded `#C2-F:` configuration line (Go struct `CurrentConfigPacket`,
protocol.go lines 91-105).  `Mode` and `CalculatorMode` are integer codes in
the source; we keep them as `Int`. -/
structure CurrentConfig where
  startFreqKHZ : Int
  freqStepHZ : Int
  ampTopDBM : Int
  ampBottomDBM : Int
  sweepSteps : Int
  expModuleActive : Bool
  currentMode : Int
  minFreqKHZ : Int
  maxFreqKHZ : Int
  maxSpan : Int
  rbwKHZ : Int
  ampOffset : Int
  calculatorMode : Int
  deriving DecidableEq

/-- Decoded `#C2-M:` setup line (Go struct `CurrentSetupPacket`). -/
structure CurrentSetup where
  model : Int
  expansionModel : Int
  firmwareVersion : List Nat
  deriving DecidableEq

/-- Decoded `#C4-F:` sniffer-configuration line (Go struct
`CurrentSnifferConfig`).  The threshold is `-0.5 × parsed_int`, exact in ℚ. -/
structure SnifferConfig where
  startFreqKHZ : Int
  expModuleActive : Bool
  currentMode : Int
  delay : Int
  modulation : Int
  rbwKHZ : Int
  thresholdDBM : ℚ
  deriving DecidableEq

/-- Decoded `$P` preset record (Go struct `Preset`, fields read at the fixed
offsets of protocol.go lines 852-869). -/
structure PresetRec where
  index : Nat
  name : List Nat
  minFreqKHz : Nat
  maxFreqKHz : Nat
  calcMode : Nat
  ampTopDBm : Int
  ampBottomDBm : Int
  calcIterations : Nat
  mainboard : Bool
  markerMode : Nat
  deriving DecidableEq

/-- The closed set of packets the decoder can emit (the Go `Packet`
interface together with every struct implementing it). -/
inductive Packet where
  | currentConfig (c : CurrentConfig)
  | currentSetup (s : CurrentSetup)
  | calibrationAvailability (mainboard expansion : Bool)
  | sweepData (samples : List ℚ)
  | serialNumber (sn : List Nat)
  | preset (p : PresetRec)
  | endOfPresets
  | currentSnifferConfig (c : SnifferConfig)
  | screenImage (data : List Nat)
  | unhandled (data : List Nat)
  | rawData (data : List Nat)
  deriving DecidableEq

/-- Result of one pass of the inner decode loop (`decodeLoop` body,
protocol.go lines 786-995): either the loop breaks to wait for more bytes,
or it hands exactly one packet to `handlePacket` and removes `consume`
bytes (`eolIdx + 2` in the source) from the front of the buffer. -/
inductive StepRes where
  | wait
  | emit (p : Packet) (consume : Nat)
  deriving DecidableEq

/-- Index of the first occurrence of the two-byte end-of-line marker
`0x0D 0x0A`, i.e. Go's `bytes.Index(buf[:off], []byte{0x0d, 0x0a})`
(`none` for `-1`). -/
def findEOL : List Nat → Option Nat
  | a :: b :: rest =>
    if a = 13 ∧ b = 10 then some 0
    else (findEOL (b :: rest)).map (· + 1)
  | _ => none

/-- Go `int(int8(b))`: reinterpret a byte as a signed 8-bit value. -/
def toInt8 (b : Nat) : Int :=
  if b < 128 then (b : Int) else (b : Int) - 256

/-- Go `binary.LittleEndian.Uint32` of the first four bytes. -/
def le32 (l : List Nat) : Nat :=
  l.getD 0 0 + 256 * l.getD 1 0 + 65536 * l.getD 2 0 + 16777216 * l.getD 3 0

/-- Decimal digit value accumulator for `strconv.Atoi`. -/
def digitsVal (l : List Nat) : Nat :=
  l.foldl (fun acc d => acc * 10 + (d - 48)) 0

/-- ASCII decimal digit test. -/
def isDigitByte (c : Nat) : Bool :=
  48 ≤ c && c ≤ 57

/-- Go `strconv.Atoi`: `none` models a syntax error (the callers in the
source either ignore the error, falling back to the value 0 that Go returns
alongside it, or substitute an invalid-code sentinel).  64-bit range
overflow is not modelled; every field in the protocol is far below it. -/
def atoiOpt (l : List Nat) : Option Int :=
  match l with
  | [] => none
  | 43 :: rest =>
    if rest ≠ [] ∧ rest.all isDigitByte then some (digitsVal rest : Int) else none
  | 45 :: rest =>
    if rest ≠ [] ∧ rest.all isDigitByte then some (-(digitsVal rest : Int)) else none
  | _ => if l.all isDigitByte then some (digitsVal l : Int) else none

/-- Go helper `parseASCIIDecimal` (protocol.go lines 246-252): empty string
parses as 0, leading zeros are stripped, and a syntax error yields 0. -/
def parseASCIIDecimal (l : List Nat) : Int :=
  if l = [] then 0
  else (atoiOpt (l.dropWhile (· = 48))).getD 0

/-- Go helper `parseMode` (protocol.go lines 377-390): empty is the invalid
code -1, all-zeros is mode 0, a syntax error is -1. -/
def parseModeCode (l : List Nat) : Int :=
  if l = [] then -1
  else
    let t := l.dropWhile (· = 48)
    if t = [] then 0 else (atoiOpt t).getD (-1)

/-- Go helper `parseModel` (protocol.go lines 362-375): empty means
`ModelNone` = 255. -/
def parseModelCode (l : List Nat) : Int :=
  if l = [] then 255
  else
    let t := l.dropWhile (· = 48)
    if t = [] then 0 else (atoiOpt t).getD (-1)

/-- Go helper `parseCalculatorMode` (protocol.go lines 392-405). -/
def parseCalcModeCode (l : List Nat) : Int :=
  if l = [] then -1
  else
    let t := l.dropWhile (· = 48)
    if t = [] then 0 else (atoiOpt t).getD (-1)

/-- Go helper `parseModulation` (protocol.go lines 86-89): plain `Atoi`
with the error ignored (0 on syntax error). -/
def parseModulationCode (l : List Nat) : Int :=
  (atoiOpt l).getD 0

/-- Go `strings.Split(s, ",")`: comma-separated parts, empty parts kept,
always at least one part. -/
def splitComma : List Nat → List (List Nat)
  | [] => [[]]
  | c :: rest =>
    if c = 44 then [] :: splitComma rest
    else
      match splitComma rest with
      | [] => [[c]]
      | h :: t => (c :: h) :: t

/-- Field list of a comma-separated line body; Go indexes `p[i]` directly
(and would panic on a missing field), the model reads `[]`. -/
def fieldAt (ps : List (List Nat)) (i : Nat) : List Nat :=
  ps.getD i []

/-- Decode the body (after `#C2-F:`) of a configuration line exactly as
protocol.go lines 894-909. -/
def parseCurrentConfig (rest : List Nat) : CurrentConfig :=
  let p := splitComma rest
  { startFreqKHZ := parseASCIIDecimal (fieldAt p 0)
    freqStepHZ := parseASCIIDecimal (fieldAt p 1)
    ampTopDBM := parseASCIIDecimal (fieldAt p 2)
    ampBottomDBM := parseASCIIDecimal (fieldAt p 3)
    sweepSteps := parseASCIIDecimal (fieldAt p 4)
    expModuleActive := fieldAt p 5 = [49]
    currentMode := parseModeCode (fieldAt p 6)
    minFreqKHZ := parseASCIIDecimal (fieldAt p 7)
    maxFreqKHZ := parseASCIIDecimal (fieldAt p 8)
    maxSpan := parseASCIIDecimal (fieldAt p 9)
    rbwKHZ := parseASCIIDecimal (fieldAt p 10)
    ampOffset := parseASCIIDecimal (fieldAt p 11)
    calculatorMode := parseCalcModeCode (fieldAt p 12) }

/-- Decode the body of a `#C2-M:` setup line (protocol.go lines 912-928);
missing trailing fields keep the Go zero values. -/
def parseCurrentSetup (rest : List Nat) : CurrentSetup :=
  let p := splitComma rest
  { model := parseModelCode (fieldAt p 0)
    expansionModel := if 2 ≤ p.length then parseModelCode (fieldAt p 1) else 0
    firmwareVersion := if 3 ≤ p.length then (fieldAt p 2).dropWhile (· = 48) else [] }

/-- Decode the body of a `#C4-F:` sniffer line (protocol.go lines 943-954). -/
def parseSniffer (rest : List Nat) : SnifferConfig :=
  let p := splitComma rest
  { startFreqKHZ := parseASCIIDecimal (fieldAt p 0)
    expModuleActive := fieldAt p 1 = [49]
    currentMode := parseModeCode (fieldAt p 2)
    delay := parseASCIIDecimal (fieldAt p 3)
    modulation := parseModulationCode (fieldAt p 4)
    rbwKHZ := parseASCIIDecimal (fieldAt p 5)
    thresholdDBM := -(1 / 2 : ℚ) * ((parseASCIIDecimal (fieldAt p 6) : Int) : ℚ) }

/-- Fixed-offset `$P` preset extraction, protocol.go lines 852-869.  Every
read goes through the full buffer `buf`, not the valid prefix: the source
performs no length check before indexing (the subject of claim C6). -/
def presetFromBuf (buf : List Nat) : PresetRec :=
  { index := buf.getD 3 0
    name := ((buf.drop 5).take 12).takeWhile (· ≠ 0)
    minFreqKHz := le32 (buf.drop 19)
    maxFreqKHz := le32 (buf.drop 23)
    calcMode := buf.getD 27 0
    ampTopDBm := toInt8 (buf.getD 28 0)
    ampBottomDBm := toInt8 (buf.getD 29 0)
    calcIterations := buf.getD 30 0
    mainboard := buf.getD 31 0 ≠ 0
    markerMode := buf.getD 32 0 }

/-- The declared `$R` frame length `nBytes + 4`, computed from the bytes at
offsets 2 and 3 of the raw buffer (protocol.go line 809 reads `buf[2]`,
`buf[3]` before checking that 4 bytes are valid — claim C10). -/
def rawFrameLen (buf : List Nat) : Nat :=
  (buf.getD 2 0 + 256 * buf.getD 3 0) + 4

/-- Shared fall-through of the decode loop (protocol.go lines 983-989): a
prefix nobody handled becomes an `UnhandledPacket` up to the end-of-line
marker, or the loop waits when no marker is buffered. -/
def fallbackStep (b : List Nat) (eol : Option Nat) : StepRes :=
  match eol with
  | some j => .emit (.unhandled (b.take j)) (j + 2)
  | none => .wait

/-- The `'#'` textual-frame sub-dispatch (protocol.go lines 872-981).  `buf`
is the raw buffer (the serial-number branch slices `buf[3:eolIdx]`), `bfull`
is `buf.take off` and `eol` the end-of-line index inside `bfull`. -/
def hashLineStep (buf bfull : List Nat) (eol : Option Nat) : StepRes :=
  match eol with
  | none => .wait
  | some j =>
    let b := bfull.take j
    if b.getD 1 0 = 67 then
      if 6 < b.length then
        if b.getD 2 0 = 50 then
          if b.getD 3 0 = 45 ∧ b.getD 5 0 = 58 then
            if b.getD 4 0 = 70 then
              .emit (.currentConfig (parseCurrentConfig (b.drop 6))) (j + 2)
            else if b.getD 4 0 = 77 then
              .emit (.currentSetup (parseCurrentSetup (b.drop 6))) (j + 2)
            else fallbackStep bfull eol
          else fallbackStep bfull eol
        else if b.getD 2 0 = 52 then
          if b.getD 3 0 = 45 ∧ b.getD 4 0 = 70 ∧ b.getD 5 0 = 58 then
            .emit (.currentSnifferConfig (parseSniffer (b.drop 6))) (j + 2)
          else fallbackStep bfull eol
        else if b.getD 2 0 = 65 then
          if b.getD 3 0 = 76 ∧ b.getD 4 0 = 58 then
            .emit (.calibrationAvailability (b.getD 5 0 = 49) (b.getD 6 0 = 49)) (j + 2)
          else fallbackStep bfull eol
        else fallbackStep bfull eol
      else fallbackStep bfull eol
    else if b.getD 1 0 = 83 then
      if b.getD 2 0 = 110 then
        .emit (.serialNumber ((buf.drop 3).take (j - 3))) (j + 2)
      else fallbackStep bfull eol
    else if b.getD 1 0 = 80 then
      if 4 ≤ b.length ∧ b.take 4 = [35, 80, 67, 75] then
        .emit .endOfPresets (j + 2)
      else fallbackStep bfull eol
    else fallbackStep bfull eol

/-- One iteration of the decode loop body (protocol.go lines 786-994),
entered only while `off > 2`.  `b` is the valid prefix `buf[:off]`; the
`$R` length bytes and every `$P` field are read from the raw `buf`, exactly
as the source does. -/
def decodeStep (buf : List Nat) (off : Nat) : StepRes :=
  let b := buf.take off
  let eol := findEOL b
  if b.getD 0 0 = 36 then
    if b.getD 1 0 = 68 then
      if b.length < 1028 then .wait
      else .emit (.screenImage ((b.drop 2).take 1024)) 1028
    else if b.getD 1 0 = 82 then
      let nBytes := buf.getD 2 0 + 256 * buf.getD 3 0
      if b.length < nBytes + 4 then .wait
      else .emit (.rawData ((b.drop 4).take nBytes)) (4 + nBytes + 2)
    else if b.getD 1 0 = 83 then
      match eol with
      | none => .wait
      | some j =>
        if 3 < b.length then
          let n := b.getD 2 0
          if b.length < 3 + n then
            fallbackStep b eol
          else
            let e := if j < 3 + n then (if b.length < 3 + n then b.length else 3 + n) else j
            .emit (.sweepData (((b.drop 3).take n).map (fun x => -(x : ℚ) / 2))) (e + 2)
        else fallbackStep b eol
    else if b.getD 1 0 = 80 then
      .emit (.preset (presetFromBuf buf))
        (match eol with | some j => j + 2 | none => 1)
    else fallbackStep b eol
  else if b.getD 0 0 = 35 then
    hashLineStep buf b eol
  else fallbackStep b eol

/-- Run the inner decode loop to quiescence: iterate `decodeStep` while
`off > 2`, dropping the consumed bytes (the `copy`/`off -=` compaction of
lines 993-994).  `off` is an `Int` because a frame whose trailing
end-of-line bytes have not arrived can be "consumed" past the valid length,
driving Go's `off` negative.  Each emitting step consumes at least one
byte, so `off.toNat` steps of fuel always suffice. -/
def runDecode : Nat → List Nat → Int → List Packet × List Nat × Int
  | 0, buf, off => ([], buf, off)
  | fuel + 1, buf, off =>
    if 2 < off then
      match decodeStep buf off.toNat with
      | .wait => ([], buf, off)
      | .emit p c =>
        let r := runDecode fuel (buf.drop c) (off - (c : Int))
        (p :: r.1, r.2.1, r.2.2)
    else ([], buf, off)

/-- One call of `port.Read` delivering `chunk`, followed by the decode loop
(readLoop body, lines 770-995).  The chunk lands at the valid offset; cells
past it read as 0 in this model (the Go buffer starts zeroed). -/
def feedChunk (st : List Nat × Int) (chunk : List Nat) : List Packet × (List Nat × Int) :=
  let buf := st.1.take st.2.toNat ++ chunk
  let off := st.2 + (chunk.length : Int)
  let r := runDecode off.toNat buf off
  (r.1, (r.2.1, r.2.2))

/-- Feed a partitioned byte stream through the read loop and collect every
packet handed to the dispatch channel, in order. -/
def runStream (chunks : List (List Nat)) : List Packet :=
  (chunks.foldl
    (fun acc ch =>
      let r := feedChunk acc.2 ch
      (acc.1 ++ r.1, r.2))
    (([] : List Packet), (([] : List Nat), (0 : Int)))).1

/-- A synthetic `$S` sweep frame as described by the wire format
(`$S<count:u8><count bytes><EOL>`, protocol.go line 821): header, declared
count, sample bytes, trailing CR LF. -/
def encodeSweepFrame (samples : List Nat) : List Nat :=
  [36, 83, samples.length] ++ samples ++ [13, 10]

/-- Fuelled helper for decimal rendering; `fuel` bounds the recursion depth
(structural recursion keeps the definition kernel-reducible). -/
def decDigitsAux : Nat → Nat → List Nat
  | 0, _ => []
  | fuel + 1, n =>
    if n < 10 then [48 + n]
    else decDigitsAux fuel (n / 10) ++ [48 + n % 10]

/-- Big-endian ASCII decimal digits of a natural number, as Go's `%d`
renders a non-negative integer (`n + 1` fuel always suffices, since a
number has at most `n + 1` digits). -/
def decDigits (n : Nat) : List Nat :=
  decDigitsAux (n + 1) n

/-- Left-pad an ASCII digit run with `'0'` to the requested width. -/
def padZeros (w : Nat) (l : List Nat) : List Nat :=
  List.replicate (w - l.length) 48 ++ l

/-- Go `fmt.Sprintf("%0*d", w, x)`: zero padding counts the sign, and the
zeros come after the minus sign. -/
def goPadInt (w : Nat) (x : Int) : List Nat :=
  if x < 0 then 45 :: padZeros (w - 1) (decDigits x.natAbs)
  else padZeros w (decDigits x.toNat)

/-- Amplitude-top clamping of `SetAnalyzerConfig` (protocol.go lines
684-689): positive values become 0, values below -120 become -120. -/
def clampTop (t : Int) : Int :=
  let t1 := if 0 < t then 0 else t
  if t1 < -120 then -120 else t1

/-- Amplitude-bottom rule (protocol.go lines 690-692): forced to -120
whenever it is not strictly below the already-clamped top or lies below
-120. -/
def clampBottom (t b : Int) : Int :=
  if clampTop t ≤ b ∨ b < -120 then -120 else b

/-- Sweep-step count derived from a requested RBW (protocol.go lines
696-702): `(end-start+rbw/2)/rbw` in Go's truncating integer division,
clamped to [112, MaxSpectrumSteps = 65535]. -/
def rbwSteps (s e r : Int) : Int :=
  let st0 := Int.tdiv (e - s + Int.tdiv r 2) r
  let st1 := if st0 < 112 then 112 else st0
  if 65535 < st1 then 65535 else st1

/-- The RBW recomputed from the clamped step count (protocol.go line 703). -/
def rbwRecomputed (s e r : Int) : Int :=
  Int.tdiv (e - s + Int.tdiv (rbwSteps s e r) 2) (rbwSteps s e r)

/-- The optional `,%05d` RBW field of the `C2-F:` command (protocol.go
lines 694-709): present exactly when a RBW in [3,670] was requested and the
recomputed value lands in [3,620). -/
def rbwSuffix (s e r : Int) : List Nat :=
  if 0 < r ∧ 3 ≤ r ∧ r ≤ 670 then
    if 3 ≤ rbwRecomputed s e r ∧ rbwRecomputed s e r < 620 then
      44 :: goPadInt 5 (rbwRecomputed s e r)
    else []
  else []

/-- ASCII bytes of the literal `"C2-F:"`. -/
def cfgHeader : List Nat := [67, 50, 45, 70, 58]

/-- Validation error text of `SetAnalyzerConfig` (protocol.go line 682). -/
def analyzerRangeErr : String :=
  "rfx: SetAnalyzerConfig startFreqKHZ and endFreqKHZ must be in the range 0..9999999"

/-- The command payload built by `SetAnalyzerConfig` (protocol.go lines
676-711): `.error` models returning before any write, `.ok` is the exact
ASCII payload handed to `SendCommand`
(`fmt.Sprintf("C2-F:%07d,%07d,%04d,%04d%s", ...)`). -/
def setAnalyzerConfigPayload (s e t b r : Int) : Except String (List Nat) :=
  if s < 0 ∨ e < 0 ∨ 9999999 < s ∨ 9999999 < e then .error analyzerRangeErr
  else
    .ok (cfgHeader ++ goPadInt 7 s ++ [44] ++ goPadInt 7 e ++ [44] ++
      goPadInt 4 (clampTop t) ++ [44] ++ goPadInt 4 (clampBottom t b) ++
      rbwSuffix s e r)

/-- Go `SendCommand` (protocol.go lines 726-737): payloads longer than 253
bytes are rejected before any write; otherwise the bytes written are
exactly `'#'`, the length byte `2 + len(cmd)`, then the payload. -/
def sendCommandBytes (cmd : List Nat) : Except String (List Nat) :=
  if 253 < cmd.length then
    .error "rfx: command may not exceed a length of 253"
  else .ok (35 :: (2 + cmd.length) :: cmd)

/-- Projection used by the configuration-cache model. -/
def asConfig : Packet → Option CurrentConfig
  | .currentConfig c => some c
  | _ => none

/-- The engine-level configuration cache (`RFExplorer.config`,
protocol.go lines 416, 452-464, 479-481): `New` blocks until the first
`CurrentConfigPacket` arrives and stores it; no other `config.Store` exists
in protocol.go, so after a run whose decoded packets are `pkts`, the cache
holds the first decoded configuration, or nothing when none arrived. -/
def rfxConfigCacheAfter (pkts : List Packet) : Option CurrentConfig :=
  pkts.findSome? asConfig

/-- The power-on default snapshot created by the consumer in main.go lines
342-347: start 0 kHz, step 1000 Hz, amplitude top 0 dBm, bottom -120 dBm
(the remaining fields keep Go zero values). -/
def defaultMainConfig : CurrentConfig :=
  { startFreqKHZ := 0
    freqStepHZ := 1000
    ampTopDBM := 0
    ampBottomDBM := -120
    sweepSteps := 0
    expModuleActive := false
    currentMode := 0
    minFreqKHZ := 0
    maxFreqKHZ := 0
    maxSpan := 0
    rbwKHZ := 0
    ampOffset := 0
    calculatorMode := 0 }

/-- The consumer's configuration snapshot (main.go lines 342-363): starts
as `defaultMainConfig` and is replaced wholesale (`config = pkt`) by every
received `CurrentConfigPacket`; every other packet leaves it unchanged. -/
def mainConfigAfter (pkts : List Packet) : CurrentConfig :=
  pkts.foldl
    (fun acc p => match asConfig p with | some c => c | none => acc)
    defaultMainConfig

/-- A concrete decoded configuration (start 463 kHz), used as a witness. -/
def cfgA : CurrentConfig := { defaultMainConfig with startFreqKHZ := 463 }

/-- A second, distinct decoded configuration (start 464 kHz). -/
def cfgB : CurrentConfig := { defaultMainConfig with startFreqKHZ := 464 }

/-! ### Supporting lemmas -/

theorem length_take_of_le {l : List Nat} {n : Nat} (h : n ≤ l.length) :
    (l.take n).length = n := by
  simp [List.length_take, Nat.min_eq_left h]

theorem getD_take_of_lt {l : List Nat} {n i : Nat} (h : i < n) (d : Nat) :
    (l.take n).getD i d = l.getD i d := by
  simp [List.getD_eq_getElem?_getD, List.getElem?_take, h]

theorem findEOL_le_of_pair :
    ∀ (l : List Nat) (i : Nat), i + 1 < l.length →
      l.getD i 0 = 13 → l.getD (i + 1) 0 = 10 →
      ∃ j, j ≤ i ∧ findEOL l = some j := by
  intro l
  induction l with
  | nil => intro i h _ _; simp at h
  | cons a rest ih =>
    intro i hlen h13 h10
    cases rest with
    | nil =>
      exfalso
      simp at hlen
    | cons b t =>
      by_cases hab : a = 13 ∧ b = 10
      · exact ⟨0, Nat.zero_le i, by simp [findEOL, hab]⟩
      · cases i with
        | zero =>
          exfalso
          exact hab ⟨by simpa using h13, by simpa using h10⟩
        | succ k =>
          obtain ⟨j, hj, hfind⟩ :=
            ih k (by simp at hlen ⊢; omega) (by simpa using h13) (by simpa using h10)
          exact ⟨j + 1, by omega, by simp [findEOL, hab, hfind]⟩

theorem decDigitsAux_length_le :
    ∀ (fuel : Nat) {k n : Nat}, 0 < k → n < 10 ^ k → n < fuel →
      (decDigitsAux fuel n).length ≤ k := by
  intro fuel
  induction fuel with
  | zero => intro k n _ _ h; omega
  | succ fuel ih =>
    intro k n hk hpow hfuel
    rw [decDigitsAux]
    split
    · simpa using hk
    · rename_i h10
      have hk2 : 2 ≤ k := by
        by_contra hcon
        have hk1 : k = 1 := by omega
        subst hk1
        simp at hpow
        omega
      have hsplit : 10 ^ k = 10 ^ (k - 1) * 10 := by
        conv_lhs => rw [show k = (k - 1) + 1 by omega]
        rw [pow_succ]
      have hdiv : n / 10 < 10 ^ (k - 1) := Nat.div_lt_of_lt_mul (by omega)
      have hfuel2 : n / 10 < fuel := by
        have := Nat.div_lt_self (show 0 < n by omega) (show 1 < 10 by omega)
        omega
      have := ih (show 0 < k - 1 by omega) hdiv hfuel2
      simp only [List.length_append, List.length_cons, List.length_nil]
      omega

theorem decDigits_length_le {k n : Nat} (hk : 0 < k) (hn : n < 10 ^ k) :
    (decDigits n).length ≤ k :=
  decDigitsAux_length_le (n + 1) hk hn (by omega)

theorem padZeros_length {w : Nat} {l : List Nat} (h : l.length ≤ w) :
    (padZeros w l).length = w := by
  simp [padZeros]
  omega

theorem goPadInt_length_nonneg {w : Nat} {x : Int} (hw : 0 < w) (h0 : 0 ≤ x)
    (hx : x < (10 : Int) ^ w) : (goPadInt w x).length = w := by
  rw [goPadInt, if_neg (by omega)]
  apply padZeros_length
  apply decDigits_length_le hw
  have h1 : ((x.toNat : Int)) < ((10 ^ w : Nat) : Int) := by
    push_cast
    rwa [Int.toNat_of_nonneg h0]
  exact_mod_cast h1

theorem goPadInt_length_neg {w : Nat} {x : Int} (hw : 2 ≤ w) (h0 : x < 0)
    (hx : x.natAbs < 10 ^ (w - 1)) : (goPadInt w x).length = w := by
  rw [goPadInt, if_pos h0]
  have h := @padZeros_length (w - 1) (decDigits x.natAbs) (decDigits_length_le (by omega) hx)
  simp [h]
  omega

theorem goPadInt_amp_length {x : Int} (hlo : -120 ≤ x) (hhi : x ≤ 0) :
    (goPadInt 4 x).length = 4 := by
  rcases lt_or_ge x 0 with h | h
  · exact goPadInt_length_neg (by omega) h (by simp; omega)
  · have hx0 : x = 0 := le_antisymm hhi h
    subst hx0
    exact goPadInt_length_nonneg (by omega) le_rfl (by norm_num)

/-- The successful `$S` branch of `decodeStep`: with the frame fully
buffered and the first end-of-line marker no later than the declared end,
the decoder emits the declared samples and consumes `3 + n + 2` bytes. -/
theorem decodeStep_sweep {buf : List Nat} {off n j : Nat}
    (hoff : off ≤ buf.length)
    (h0 : (buf.take off).getD 0 0 = 36)
    (h1 : (buf.take off).getD 1 0 = 83)
    (hn : (buf.take off).getD 2 0 = n)
    (hfind : findEOL (buf.take off) = some j)
    (h3 : 3 < off) (hfull : 3 + n ≤ off) (hj : j ≤ 3 + n) :
    decodeStep buf off =
      .emit (.sweepData ((((buf.take off).drop 3).take n).map (fun x => -(x : ℚ) / 2)))
        (3 + n + 2) := by
  have hblen : (buf.take off).length = off := length_take_of_le hoff
  simp only [decodeStep, hblen, h0, h1, hn, hfind]
  norm_num
  rw [if_pos h3, if_neg (show ¬ off < 3 + n by omega)]
  rcases Nat.lt_or_ge j (3 + n) with hlt | hge
  · rw [if_pos hlt, if_neg (show ¬ off < 3 + n by omega)]
  · have hje : j = 3 + n := by omega
    subst hje
    rw [if_neg (by omega)]

/-- A list followed by a CR LF pair always contains an end-of-line marker no
later than the end of that list. -/
theorem findEOL_append_eol (l : List Nat) :
    ∃ j, j ≤ l.length ∧ findEOL (l ++ [13, 10]) = some j := by
  apply findEOL_le_of_pair
  · simp
  · rw [List.getD_append_right _ _ _ _ le_rfl]
    simp
  · rw [List.getD_append_right _ _ _ _ (by omega)]
    simp

/-- A buffer whose first two valid bytes are known splits into an explicit
double cons. -/
theorem eq_cons_cons_of_take_two {l : List Nat} {a b : Nat} (h : l.take 2 = [a, b]) :
    ∃ t, l = a :: b :: t := by
  cases l with
  | nil => simp at h
  | cons x l1 =>
    cases l1 with
    | nil => simp at h
    | cons y t =>
      simp at h
      exact ⟨t, by rw [h.1, h.2]⟩

/-! ### Claim theorems -/

/-- C1: a fully buffered `$S` frame whose declared sample range (offsets
3..3+n-1, n the byte at offset 2) contains the two-byte sequence 0x0D 0x0A
still decodes in one step to a single SweepDataPacket carrying all n
declared samples; the frame is consumed up to the declared length 3+n plus
the end-of-line pair, i.e. the declared length overrides the scanned
end-of-line position, and no truncation at the embedded marker occurs. -/
theorem sweep_embedded_eol_full_frame (buf : List Nat) (off n i : Nat)
    (hoff : off ≤ buf.length)
    (h0 : (buf.take off).getD 0 0 = 36)
    (h1 : (buf.take off).getD 1 0 = 83)
    (hn : (buf.take off).getD 2 0 = n)
    (hfull : 3 + n ≤ off)
    (hi3 : 3 ≤ i) (hiu : i + 1 < 3 + n)
    (h13 : (buf.take off).getD i 0 = 13) (h10 : (buf.take off).getD (i + 1) 0 = 10) :
    decodeStep buf off =
      .emit (.sweepData ((((buf.take off).drop 3).take n).map
          (fun x => -(x : ℚ) / 2))) (3 + n + 2)
    ∧ (((buf.take off).drop 3).take n).length = n := by
  have hblen : (buf.take off).length = off := length_take_of_le hoff
  obtain ⟨j, hj, hfind⟩ := findEOL_le_of_pair (buf.take off) i (by omega) h13 h10
  constructor
  · exact decodeStep_sweep hoff h0 h1 hn hfind (by omega) hfull (by omega)
  · simp [List.length_take, List.length_drop]
    omega

/-- C1 witness: the frame `$S 02 0D 0A 0D 0A` (both declared samples are
the end-of-line bytes themselves) decodes to one two-sample packet. -/
theorem sweep_embedded_eol_full_frame_check :
    decodeStep [36, 83, 2, 13, 10, 13, 10] 7 =
      .emit (.sweepData ([13, 10].map (fun x => -(x : ℚ) / 2))) 7 := by
  have h := sweep_embedded_eol_full_frame [36, 83, 2, 13, 10, 13, 10] 7 2 3
    (by decide) (by decide) (by decide) (by decide) (by decide) (by decide)
    (by decide) (by decide) (by decide)
  exact h.1

/-- C7: encoding a synthetic `$S` frame from arbitrary sample bytes and
decoding it round-trips: the decoder emits one SweepDataPacket whose i-th
sample is `-byte[i]/2` (a byte 0x11 = 17 becomes -8.5 dBm). -/
theorem sweep_synthetic_roundtrip (samples : List Nat) (hcount : samples.length ≤ 255) :
    decodeStep (encodeSweepFrame samples) (encodeSweepFrame samples).length =
      .emit (.sweepData (samples.map (fun x => -(x : ℚ) / 2)))
        (3 + samples.length + 2) := by
  obtain ⟨j, hj, hfind⟩ := findEOL_append_eol ([36, 83, samples.length] ++ samples)
  have hfr : encodeSweepFrame samples = ([36, 83, samples.length] ++ samples) ++ [13, 10] := by
    simp [encodeSweepFrame]
  have hlen : (encodeSweepFrame samples).length = samples.length + 5 := by
    simp [encodeSweepFrame]
  have htake : (encodeSweepFrame samples).take (encodeSweepFrame samples).length =
      encodeSweepFrame samples := List.take_length _
  have hjle : j ≤ 3 + samples.length := by
    simp at hj
    omega
  have hsamp : ((encodeSweepFrame samples).drop 3).take samples.length = samples := by
    show (samples ++ [13, 10]).take samples.length = samples
    exact List.take_left _ _
  have h := @decodeStep_sweep (encodeSweepFrame samples) (encodeSweepFrame samples).length
    samples.length j le_rfl (by rw [htake]; rfl) (by rw [htake]; rfl) (by rw [htake]; rfl)
    (by rw [htake, hfr]; exact hfind) (by omega) (by omega) hjle
  rw [htake, hsamp] at h
  exact h

/-- C7 witness: five arbitrary bytes (including 0x11 = 17 → -8.5 dBm and an
embedded CR LF pair) survive the encode/decode round trip. -/
theorem sweep_synthetic_roundtrip_check :
    decodeStep (encodeSweepFrame [17, 0, 255, 13, 10]) 10 =
      .emit (.sweepData ([17, 0, 255, 13, 10].map (fun x => -(x : ℚ) / 2))) 10 := by
  have h := sweep_synthetic_roundtrip [17, 0, 255, 13, 10] (by decide)
  have hl : (encodeSweepFrame [17, 0, 255, 13, 10]).length = 10 := by decide
  rw [hl] at h
  exact h

/-- C5 amended: the `$D` branch waits until 1028 bytes (2-byte header,
1024-byte bitmap, and the 2-byte end-of-line pair the source counts into
0x404) are buffered; from 1028 bytes on it emits one ScreenImage whose data
is the 1024 bytes at offsets 2..1025, consuming 1028 bytes. -/
theorem screen_dump_threshold (buf : List Nat) (off : Nat)
    (hoff : off ≤ buf.length)
    (h0 : (buf.take off).getD 0 0 = 36)
    (h1 : (buf.take off).getD 1 0 = 68) :
    (off < 1028 → decodeStep buf off = .wait)
    ∧ (1028 ≤ off → decodeStep buf off =
        .emit (.screenImage (((buf.take off).drop 2).take 1024)) 1028) := by
  have hblen : (buf.take off).length = off := length_take_of_le hoff
  constructor
  · intro h
    simp only [decodeStep, hblen, h0, h1]
    norm_num
    intro h2
    omega
  · intro h
    simp only [decodeStep, hblen, h0, h1]
    norm_num
    intro h2
    omega

set_option maxRecDepth 8000 in
/-- C5 counterexample: 1026 buffered bytes — the full `$D` header plus the
complete 1024-byte bitmap, which the claim says suffices — produce no
packet; the decoder still waits. -/
theorem screen_dump_1026_waits :
    decodeStep (36 :: 68 :: List.replicate 1024 7) 1026 = .wait := by
  decide

set_option maxRecDepth 8000 in
/-- C5 witness: 1027 bytes still wait; 1028 bytes emit the ScreenImage of
the bytes at offsets 2..1025 and consume 1028. -/
theorem screen_dump_threshold_check :
    decodeStep (36 :: 68 :: (List.replicate 1024 7 ++ [99])) 1027 = .wait
    ∧ decodeStep (36 :: 68 :: (List.replicate 1024 7 ++ [13, 10])) 1028 =
        .emit (.screenImage (List.replicate 1024 7)) 1028 := by
  constructor
  · exact (screen_dump_threshold (36 :: 68 :: (List.replicate 1024 7 ++ [99])) 1027
      (by simp) (by decide) (by decide)).1 (by omega)
  · have h := (screen_dump_threshold (36 :: 68 :: (List.replicate 1024 7 ++ [13, 10])) 1028
      (by simp) (by decide) (by decide)).2 (by omega)
    exact h.trans (by decide)

/-- C6 (defect in the source): with only the three valid bytes `$P 0x07`
buffered and stale bytes beyond the valid length, the `$P` branch does not
wait for the 36-byte fixed layout: it immediately emits a Preset whose
every field is read from the stale region (here thirty 0x41 bytes), and
consumes one byte. -/
theorem preset_reads_beyond_valid :
    decodeStep ([36, 80, 7] ++ List.replicate 30 65) 3 =
      .emit (.preset ⟨65, List.replicate 12 65, 1094795585, 1094795585, 65, 65, 65, 65,
        true, 65⟩) 1
    ∧ decodeStep ([36, 80, 7] ++ List.replicate 30 65) 3 ≠ .wait := by
  exact ⟨by decide, by decide⟩

set_option maxRecDepth 8000 in
/-- C10 counterexample: with exactly the three valid bytes `$R 0x05`
buffered, the computed frame length does read the byte at offset 3 (two
stale values give two different lengths), yet the decode decision is
identical for every one of the 256 possible stale bytes: the loop always
waits, so neither the waiting behaviour nor the frame boundary can depend
on stale buffer content. -/
theorem raw_stale_byte_no_observable_effect :
    rawFrameLen [36, 82, 5, 0] ≠ rawFrameLen [36, 82, 5, 7]
    ∧ ((List.range 256).all fun stale =>
        decide (decodeStep [36, 82, 5, stale] 3 = StepRes.wait)) = true := by
  exact ⟨by decide, by decide⟩

/-- C10 amended: the `$R` branch computes the declared length from offsets
2 and 3 before checking that four bytes are buffered, and with three valid
bytes offset 3 is indeed beyond the valid length; but the computed length
cannot alter observable behaviour: with three valid bytes the guard
`len(b) < nBytes + 4` holds for every stale value so the decoder waits,
and from four valid bytes on the step depends only on the valid prefix. -/
theorem raw_length_check_order (buf buf2 : List Nat) (off : Nat)
    (hpre : buf.take 2 = [36, 82]) :
    decodeStep buf 3 = .wait
    ∧ rawFrameLen buf = buf.getD 2 0 + 256 * buf.getD 3 0 + 4
    ∧ (4 ≤ off → buf.take off = buf2.take off →
        decodeStep buf off = decodeStep buf2 off) := by
  obtain ⟨t, rfl⟩ := eq_cons_cons_of_take_two hpre
  refine ⟨?_, rfl, ?_⟩
  · simp only [decodeStep]
    norm_num
  · intro h4 heq
    obtain ⟨o, rfl⟩ : ∃ o, off = o + 4 := ⟨off - 4, by omega⟩
    have hpre2 : buf2.take 2 = [36, 82] := by
      have h := congrArg (fun l => List.take 2 l) heq
      simpa [List.take_take] using h.symm
    obtain ⟨t2, rfl⟩ := eq_cons_cons_of_take_two hpre2
    have htt : t.take (o + 2) = t2.take (o + 2) := by
      simpa using heq
    have g0 : t.getD 0 0 = t2.getD 0 0 := by
      rw [← getD_take_of_lt (show (0 : Nat) < o + 2 by omega) 0, htt,
        getD_take_of_lt (show (0 : Nat) < o + 2 by omega) 0]
    have g1 : t.getD 1 0 = t2.getD 1 0 := by
      rw [← getD_take_of_lt (show (1 : Nat) < o + 2 by omega) 0, htt,
        getD_take_of_lt (show (1 : Nat) < o + 2 by omega) 0]
    simp only [List.getD_eq_getElem?_getD] at g0 g1
    simp [decodeStep, List.take_succ_cons, htt, g0, g1]

/-- C10 witness: with three valid bytes the decoder waits, and with the
fourth byte valid the step agrees with any extension of the buffer. -/
theorem raw_length_check_order_check :
    decodeStep [36, 82, 5, 9] 3 = .wait
    ∧ decodeStep [36, 82, 5, 9] 4 = decodeStep [36, 82, 5, 9, 99] 4 := by
  have h := raw_length_check_order [36, 82, 5, 9] [36, 82, 5, 9, 99] 4 (by decide)
  exact ⟨h.1, h.2.2 (by omega) (by decide)⟩

/-- C2 (defect in the source): the valid stream `$S 03 0D 0A 41 0D 0A` — a
well-formed three-sample sweep frame whose first two samples are the
end-of-line bytes — decodes to one SweepDataPacket when delivered in a
single read, but delivered one byte at a time the SHORT path truncates the
frame at the embedded end-of-line pair and two UnhandledPackets come out
instead: the packet sequence depends on the read partition. -/
theorem partition_dependence_short_sweep :
    runStream [[36, 83, 3, 13, 10, 65, 13, 10]] =
      [.sweepData ([13, 10, 65].map (fun x => -(x : ℚ) / 2))]
    ∧ runStream ([36, 83, 3, 13, 10, 65, 13, 10].map (fun x => [x])) =
      [.unhandled [36, 83, 3], .unhandled [65]]
    ∧ runStream [[36, 83, 3, 13, 10, 65, 13, 10]] ≠
      runStream ([36, 83, 3, 13, 10, 65, 13, 10].map (fun x => [x])) := by
  exact ⟨rfl, by decide, by decide⟩

/-- C3: `SetAnalyzerConfig` rejects any start or end frequency outside
[0, 9999999] with a validation error before writing anything; otherwise the
payload sent is exactly the fixed-width template `C2-F:` + 7-digit start +
comma + 7-digit end + comma + 4-digit top + comma + 4-digit bottom, with at
most an optional 5-digit RBW suffix; the top is clamped into [-120, 0] and
the bottom is forced to -120 whenever it is not strictly below the clamped
top or lies below -120. -/
theorem setAnalyzerConfig_template (s e t b r : Int) :
    ((s < 0 ∨ e < 0 ∨ 9999999 < s ∨ 9999999 < e) →
      setAnalyzerConfigPayload s e t b r = .error analyzerRangeErr)
    ∧ (0 ≤ s → s ≤ 9999999 → 0 ≤ e → e ≤ 9999999 →
      setAnalyzerConfigPayload s e t b r =
        .ok (cfgHeader ++ goPadInt 7 s ++ [44] ++ goPadInt 7 e ++ [44] ++
          goPadInt 4 (clampTop t) ++ [44] ++ goPadInt 4 (clampBottom t b) ++
          rbwSuffix s e r)
      ∧ (goPadInt 7 s).length = 7 ∧ (goPadInt 7 e).length = 7
      ∧ (goPadInt 4 (clampTop t)).length = 4 ∧ (goPadInt 4 (clampBottom t b)).length = 4
      ∧ -120 ≤ clampTop t ∧ clampTop t ≤ 0
      ∧ ((clampTop t ≤ b ∨ b < -120) → clampBottom t b = -120)
      ∧ (-120 ≤ b → b < clampTop t → clampBottom t b = b)
      ∧ (rbwSuffix s e r = [] ∨ ∃ rr : Int, 3 ≤ rr ∧ rr < 620 ∧
          rbwSuffix s e r = 44 :: goPadInt 5 rr ∧ (goPadInt 5 rr).length = 5)) := by
  have hct : -120 ≤ clampTop t ∧ clampTop t ≤ 0 := by
    simp only [clampTop]
    split_ifs <;> omega
  constructor
  · intro h
    rw [setAnalyzerConfigPayload, if_pos h]
  · intro hs1 hs2 he1 he2
    have hcb : -120 ≤ clampBottom t b ∧ clampBottom t b ≤ 0 := by
      simp only [clampBottom]
      split_ifs <;> omega
    refine ⟨by rw [setAnalyzerConfigPayload, if_neg (by omega)], ?_, ?_, ?_, ?_,
      hct.1, hct.2, ?_, ?_, ?_⟩
    · exact goPadInt_length_nonneg (by norm_num) hs1 (by norm_num; omega)
    · exact goPadInt_length_nonneg (by norm_num) he1 (by norm_num; omega)
    · exact goPadInt_amp_length hct.1 hct.2
    · exact goPadInt_amp_length hcb.1 hcb.2
    · intro h
      rw [clampBottom, if_pos h]
    · intro h1 h2
      rw [clampBottom, if_neg (by omega)]
    · rw [rbwSuffix]
      split_ifs with hg hin
      · exact Or.inr ⟨rbwRecomputed s e r, hin.1, hin.2, rfl,
          goPadInt_length_nonneg (by norm_num) (by omega) (by norm_num; omega)⟩
      · exact Or.inl rfl
      · exact Or.inl rfl

/-- C3 witness: a valid call produces exactly the template (top 5 clamped
to 0, bottom -60 kept), and an out-of-range start yields the validation
error so nothing is written. -/
theorem setAnalyzerConfig_template_check :
    setAnalyzerConfigPayload 463000 464000 5 (-60) 0 =
      .ok (cfgHeader ++ goPadInt 7 463000 ++ [44] ++ goPadInt 7 464000 ++ [44] ++
        goPadInt 4 (clampTop 5) ++ [44] ++ goPadInt 4 (clampBottom 5 (-60)) ++
        rbwSuffix 463000 464000 0)
    ∧ (goPadInt 4 (clampTop 5)).length = 4
    ∧ setAnalyzerConfigPayload (-1) 464000 5 (-60) 0 = .error analyzerRangeErr := by
  have h := (setAnalyzerConfig_template 463000 464000 5 (-60) 0).2
    (by norm_num) (by norm_num) (by norm_num) (by norm_num)
  exact ⟨h.1, h.2.2.2.1, (setAnalyzerConfig_template (-1) 464000 5 (-60) 0).1 (by omega)⟩

/-- C4: for a requested RBW in [3,670] the encoder computes the step count
`(end-start+rbw/2)/rbw` clamped into [112, 65535], recomputes the RBW as
`(end-start+steps/2)/steps`, and emits it as a 5-digit field exactly when
the recomputed value lands in [3,620), omitting the field otherwise; in
particular start=463000, end=464000, rbw=0 emits no RBW field at all. -/
theorem setAnalyzerConfig_rbw (s e r : Int) (h3 : 3 ≤ r) (h670 : r ≤ 670) :
    112 ≤ rbwSteps s e r ∧ rbwSteps s e r ≤ 65535
    ∧ (3 ≤ rbwRecomputed s e r ∧ rbwRecomputed s e r < 620 →
        rbwSuffix s e r = 44 :: goPadInt 5 (rbwRecomputed s e r)
        ∧ (goPadInt 5 (rbwRecomputed s e r)).length = 5)
    ∧ (¬(3 ≤ rbwRecomputed s e r ∧ rbwRecomputed s e r < 620) → rbwSuffix s e r = [])
    ∧ setAnalyzerConfigPayload 463000 464000 0 (-120) 0 =
        .ok (cfgHeader ++ goPadInt 7 463000 ++ [44] ++ goPadInt 7 464000 ++ [44] ++
          goPadInt 4 0 ++ [44] ++ goPadInt 4 (-120)) := by
  have hst : 112 ≤ rbwSteps s e r ∧ rbwSteps s e r ≤ 65535 := by
    simp only [rbwSteps]
    split_ifs <;> omega
  refine ⟨hst.1, hst.2, ?_, ?_, by rfl⟩
  · intro h
    rw [rbwSuffix, if_pos ⟨by omega, h3, h670⟩, if_pos h]
    exact ⟨rfl, goPadInt_length_nonneg (by norm_num) (by omega) (by norm_num; omega)⟩
  · intro h
    rw [rbwSuffix, if_pos ⟨by omega, h3, h670⟩, if_neg h]

/-- C4 witness: the 2.4 GHz Zigbee span (from the application source) with
a requested RBW of 400 kHz clamps steps to 193 and keeps the recomputed
399 kHz RBW as a 5-digit field. -/
theorem setAnalyzerConfig_rbw_check :
    rbwSuffix 2404000 2481000 400 =
      44 :: goPadInt 5 (rbwRecomputed 2404000 2481000 400)
    ∧ 112 ≤ rbwSteps 2404000 2481000 400 := by
  have h := setAnalyzerConfig_rbw 2404000 2481000 400 (by norm_num) (by norm_num)
  exact ⟨(h.2.2.1 (by decide)).1, h.1⟩

/-- C8: `SendCommand` rejects payloads longer than 253 bytes with a
validation error before any write; otherwise the bytes written are exactly
`'#'` (0x23), the length byte `2 + len(payload)` (which always fits in one
byte), then the payload. -/
theorem sendCommand_framing (cmd : List Nat) :
    (253 < cmd.length →
      sendCommandBytes cmd = .error "rfx: command may not exceed a length of 253")
    ∧ (cmd.length ≤ 253 →
      sendCommandBytes cmd = .ok (35 :: (2 + cmd.length) :: cmd)
      ∧ 2 + cmd.length ≤ 255) := by
  constructor
  · intro h
    rw [sendCommandBytes, if_pos h]
  · intro h
    exact ⟨by rw [sendCommandBytes, if_neg (by omega)], by omega⟩

/-- C8 witness: a 254-byte payload fails with the validation error and
nothing is written; the two-byte payload `C0` is framed as `0x23 0x04` plus
the payload. -/
theorem sendCommand_framing_check :
    sendCommandBytes (List.replicate 254 67) =
      .error "rfx: command may not exceed a length of 253"
    ∧ sendCommandBytes [67, 48] = .ok [35, 4, 67, 48] := by
  refine ⟨(sendCommand_framing (List.replicate 254 67)).1
    (by rw [List.length_replicate]; omega), ?_⟩
  have h := ((sendCommand_framing [67, 48]).2 (by norm_num)).1
  exact h.trans (by rfl)

/-- C9 counterexample: the engine cache of protocol.go is not created
holding the power-on defaults — before any configuration decodes it holds
nothing at all — and a second decoded CurrentConfig does not replace the
first stored one. -/
theorem config_cache_claim_fails :
    rfxConfigCacheAfter [] = none
    ∧ rfxConfigCacheAfter [.currentConfig cfgA, .currentConfig cfgB] = some cfgA
    ∧ cfgA ≠ cfgB := by
  exact ⟨rfl, rfl, by decide⟩

/-- C9 amended: the power-on defaults (start 0 kHz, step 1000 Hz, top
0 dBm, bottom -120 dBm) and the replace-on-every-decode discipline belong
to the consumer snapshot of main.go: that snapshot is replaced wholesale by
each decoded CurrentConfig, left untouched by every other packet, and every
read of it sees either the defaults or one complete previously decoded
configuration; the engine cache of protocol.go instead keeps the first
decoded CurrentConfig for the whole run (seeded once by `New`, never
replaced afterwards). -/
theorem config_cache_discipline :
    (defaultMainConfig.startFreqKHZ = 0 ∧ defaultMainConfig.freqStepHZ = 1000
      ∧ defaultMainConfig.ampTopDBM = 0 ∧ defaultMainConfig.ampBottomDBM = -120)
    ∧ (∀ pkts c, mainConfigAfter (pkts ++ [Packet.currentConfig c]) = c)
    ∧ (∀ pkts p, asConfig p = none → mainConfigAfter (pkts ++ [p]) = mainConfigAfter pkts)
    ∧ (∀ pkts, mainConfigAfter pkts = defaultMainConfig
        ∨ Packet.currentConfig (mainConfigAfter pkts) ∈ pkts)
    ∧ (∀ pkts rest c, rfxConfigCacheAfter pkts = some c →
        rfxConfigCacheAfter (pkts ++ rest) = some c) := by
  have asConfig_eq : ∀ (p : Packet) (c : CurrentConfig),
      asConfig p = some c → p = Packet.currentConfig c := by
    intro p c hp
    cases p <;> simp [asConfig] at hp
    rw [hp]
  refine ⟨⟨rfl, rfl, rfl, rfl⟩, ?_, ?_, ?_, ?_⟩
  · intro pkts c
    simp [mainConfigAfter, List.foldl_append, asConfig]
  · intro pkts p hp
    simp [mainConfigAfter, List.foldl_append, hp]
  · intro pkts
    have key : ∀ (l : List Packet) (acc : CurrentConfig),
        l.foldl (fun acc p => match asConfig p with | some c => c | none => acc) acc = acc
        ∨ Packet.currentConfig
            (l.foldl (fun acc p => match asConfig p with | some c => c | none => acc) acc)
          ∈ l := by
      intro l
      induction l with
      | nil => intro acc; exact Or.inl rfl
      | cons p rest ih =>
        intro acc
        rw [List.foldl_cons]
        cases hp : asConfig p with
        | some c =>
          simp only [hp]
          rcases ih c with h | h
          · right
            rw [h, ← asConfig_eq p c hp]
            exact List.mem_cons_self _ _
          · exact Or.inr (List.mem_cons_of_mem _ h)
        | none =>
          simp only [hp]
          rcases ih acc with h | h
          · exact Or.inl h
          · exact Or.inr (List.mem_cons_of_mem _ h)
    exact key pkts defaultMainConfig
  · intro pkts rest c h
    rw [rfxConfigCacheAfter, List.findSome?_append]
    rw [rfxConfigCacheAfter] at h
    rw [h]
    rfl

/-- C9 witness: the consumer snapshot takes each decoded configuration
wholesale and ignores other packets; the engine cache keeps the first
decoded configuration even after a second one decodes. -/
theorem config_cache_discipline_check :
    mainConfigAfter [Packet.currentConfig cfgA] = cfgA
    ∧ mainConfigAfter [Packet.currentConfig cfgA, Packet.endOfPresets] = cfgA
    ∧ rfxConfigCacheAfter ([Packet.currentConfig cfgA] ++ [Packet.currentConfig cfgB]) =
        some cfgA := by
  refine ⟨?_, ?_, ?_⟩
  · have h := config_cache_discipline.2.1 [] cfgA
    simpa using h
  · have h := config_cache_discipline.2.2.1 [Packet.currentConfig cfgA]
      Packet.endOfPresets rfl
    have h2 := config_cache_discipline.2.1 ([] : List Packet) cfgA
    calc mainConfigAfter [Packet.currentConfig cfgA, Packet.endOfPresets]
        = mainConfigAfter ([Packet.currentConfig cfgA] ++ [Packet.endOfPresets]) := rfl
      _ = mainConfigAfter [Packet.currentConfig cfgA] := h
      _ = cfgA := by simpa using h2
  · exact config_cache_discipline.2.2.2.2 [Packet.currentConfig cfgA]
      [Packet.currentConfig cfgB] cfgA rfl

end RFExplorer
